import Mathlib

/-!
Verification of the range-check circuit in `src/range_check/example1b.rs`.

The repository's own code is the circuit definition (`MyConfig`, `MyCircuit`,
`configure`, `synthesize` and the gate polynomial built inside `configure`).
The constraint-checking engine it runs on (expressions, constraint system,
assignment table, mock-prover verifier) is an external dependency that is not
part of the repository sources, so those components are modelled from the
specification (its sections 3, 4.1-4.4): expressions are a closed algebraic
tree evaluated against a table; the verifier scans every usable row, treats
rows where a gate's selector is inactive as satisfied, and reports located
failures with hexadecimal-formatted cell values.

Field elements are generic over a commutative ring wherever possible; the
concrete instantiation `Fp` is the integers modulo the Pallas base-field
prime used by the repository's test (`pasta::Fp`).
-/

namespace RangeCheck

/-- Expression tree over a field, mirroring the variants of the dependency's
`Expression` type that the circuit uses: constants, selector queries and
advice queries (column id, rotation), closed under negation, sum, product.
Modelled from the spec: section 3, "Expression". -/
inductive Expression (F : Type) where
  | Constant : F → Expression F
  | Selector : Nat → Expression F
  | Advice : Nat → Int → Expression F
  | Neg : Expression F → Expression F
  | Sum : Expression F → Expression F → Expression F
  | Product : Expression F → Expression F → Expression F
deriving DecidableEq

/-- Subtraction sugar on expressions, as used by `a - b` in the source
(desugared to a sum with a negated right operand). -/
def Expression.sub {F : Type} (a b : Expression F) : Expression F :=
  Expression.Sum a (Expression.Neg b)

/-- Multiplication sugar on expressions, as used by `a * b` in the source. -/
def Expression.mul {F : Type} (a b : Expression F) : Expression F :=
  Expression.Product a b

/-- The range-check polynomial of `MyCircuit::configure`
(src/range_check/example1b.rs lines 58-62): the Rust fold
`(1..RANGE).fold(value.clone(), |expr, i| expr * (Constant(F::from(i)) - value))`.
The iterator `1..RANGE` visits `1, ..., RANGE - 1` (empty when `RANGE ≤ 1`),
so the seed is the advice-value expression itself. -/
def rc_polynomial (F : Type) [CommRing F] (RANGE : Nat) (value : Expression F) :
    Expression F :=
  (List.range' 1 (RANGE - 1)).foldl
    (fun (expr : Expression F) (i : Nat) =>
      Expression.mul expr (Expression.sub (Expression.Constant (i : F)) value))
    value

/-- The circuit configuration produced by `MyCircuit::configure`: one advice
column and one selector (src/range_check/example1b.rs lines 24-29). Column
and selector identifiers are the indices the constraint system hands out. -/
structure MyConfig where
  advice_column : Nat
  q_range_check : Nat
deriving DecidableEq

/-- A gate of the constraint system: a name, the selector guarding it, and an
ordered list of named constraint expressions. Modelled from the spec:
section 3, "Gate" (the verifier treats rows where the selector is inactive
as automatically satisfied, which the spec states is semantically equivalent
to multiplying every expression by the selector value). -/
structure Gate (F : Type) where
  name : String
  selector : Nat
  polys : List (String × Expression F)

/-- The assignment table: per-column per-row advice values (`none` means
unassigned), per-selector per-row activation bits, and the provenance side
table mapping an assigned cell to (region index, region name, offset).
Modelled from the spec: section 3, "AssignmentTable" and "Region". -/
structure AssignmentTable (F : Type) where
  num_rows : Nat
  advice : Nat → Nat → Option F
  selectors : Nat → Nat → Bool
  provenance : Nat → Nat → Option (Nat × String × Nat)

/-- A fresh table: no cell assigned, no selector enabled, no provenance.
Modelled from the spec: section 3 (defaults of the assignment table). -/
def emptyTable (F : Type) (num_rows : Nat) : AssignmentTable F :=
  { num_rows := num_rows
    advice := fun _ _ => none
    selectors := fun _ _ => false
    provenance := fun _ _ => none }

/-- Region operation `enable_selector`: set the activation bit of selector
`s` at row `row`. Modelled from the spec: section 4.3. -/
def enable_selector {F : Type} (t : AssignmentTable F) (s row : Nat) :
    AssignmentTable F :=
  { t with selectors := fun s' r' => if s' = s ∧ r' = row then true else t.selectors s' r' }

/-- Region operation `assign_advice`: write value `v` into cell
`(col, row)` and record the provenance `(regionIndex, regionName, offset)`.
Modelled from the spec: section 4.3. -/
def assign_advice {F : Type} (t : AssignmentTable F) (col row : Nat) (v : Option F)
    (regionIndex : Nat) (regionName : String) (offset : Nat) : AssignmentTable F :=
  { t with
    advice := fun c' r' => if c' = col ∧ r' = row then v else t.advice c' r'
    provenance := fun c' r' =>
      if c' = col ∧ r' = row then some (regionIndex, regionName, offset)
      else t.provenance c' r' }

/-- The circuit struct of the source (src/range_check/example1b.rs lines
35-39): it carries the witness as a `Value<Assigned<F>>`, modelled as an
`Option F` where `none` is the Unknown value. -/
structure MyCircuit (F : Type) where
  assigned_value : Option F

/-- The derived `Default` of `MyCircuit`: every field takes its default, and
the default of `Value` is the Unknown value (`Value::unknown()`), modelled
as `none`. -/
def MyCircuit.default (F : Type) : MyCircuit F :=
  { assigned_value := none }

/-- `Circuit::without_witnesses` from the source (lines 45-47): returns
`Self::default()`. -/
def without_witnesses (F : Type) (_c : MyCircuit F) : MyCircuit F :=
  MyCircuit.default F

/-- `MyCircuit::configure` from the source (lines 50-73): allocate one advice
column (id 0) and one selector (id 0), then register the gate named
"range check" whose single constraint, also named "range check", is the
range-check polynomial over the advice query `Advice 0 (Rotation::cur())`,
guarded by the selector (the source's `Constraints::with_selector`). -/
def configure (F : Type) [CommRing F] (RANGE : Nat) : MyConfig × List (Gate F) :=
  ({ advice_column := 0, q_range_check := 0 },
   [{ name := "range check"
      selector := 0
      polys := [("range check", rc_polynomial F RANGE (Expression.Advice 0 0))] }])

/-- `MyCircuit::synthesize` from the source (lines 75-106): open the single
region named "Assign value" (region index 0), enable `q_range_check` at
offset 0 and assign the witness into the advice column at offset 0. The
region's local offset 0 maps to absolute row 0. -/
def synthesize (F : Type) (c : MyCircuit F) (config : MyConfig)
    (t : AssignmentTable F) : AssignmentTable F :=
  assign_advice (enable_selector t config.q_range_check 0)
    config.advice_column 0 c.assigned_value 0 "Assign value" 0

/-- Evaluation errors. Modelled from the spec: sections 4.1 and 4.4. -/
inductive EvalError where
  | CellUnassigned : EvalError
  | RowOutOfRange : EvalError
deriving DecidableEq

/-- Expression evaluation against a table at a row. Modelled from the spec:
section 4.1 — constants evaluate to themselves, a selector query to 1 or 0,
an advice query looks up row `row + rotation` (an error outside
`[0, num_rows)`, an error if the cell is unassigned), and the algebraic
nodes combine their children with ring operations, the left child's error
taking precedence. -/
def evaluate {F : Type} [CommRing F] (t : AssignmentTable F) (row : Nat) :
    Expression F → Except EvalError F
  | .Constant c => .ok c
  | .Selector s => .ok (if t.selectors s row then 1 else 0)
  | .Advice col rot =>
      if 0 ≤ (row : Int) + rot ∧ (row : Int) + rot < (t.num_rows : Int) then
        match t.advice col ((row : Int) + rot).toNat with
        | some v => .ok v
        | none => .error .CellUnassigned
      else .error .RowOutOfRange
  | .Neg a =>
      match evaluate t row a with
      | .ok v => .ok (-v)
      | .error e => .error e
  | .Sum a b =>
      match evaluate t row a, evaluate t row b with
      | .ok va, .ok vb => .ok (va + vb)
      | .error e, _ => .error e
      | .ok _, .error e => .error e
  | .Product a b =>
      match evaluate t row a, evaluate t row b with
      | .ok va, .ok vb => .ok (va * vb)
      | .error e, _ => .error e
      | .ok _, .error e => .error e

/-- The advice cells an expression reads, in left-to-right traversal order.
Modelled from the spec: section 4.4 ("in the order the expression touches
them"). -/
def adviceQueries {F : Type} : Expression F → List (Nat × Int)
  | .Constant _ => []
  | .Selector _ => []
  | .Advice col rot => [(col, rot)]
  | .Neg a => adviceQueries a
  | .Sum a b => adviceQueries a ++ adviceQueries b
  | .Product a b => adviceQueries a ++ adviceQueries b

/-- Deduplicate a query list keeping the first occurrence of each query, so
a failure cites each advice cell once. Modelled from the spec: section 4.4. -/
def dedupQueries (l : List (Nat × Int)) : List (Nat × Int) :=
  l.foldl (fun acc q => if q ∈ acc then acc else acc ++ [q]) []

/-- Failure location: inside a region (region index, region name, offset) when
provenance is known for the cells the failing expression touched, otherwise
the bare row. Modelled from the spec: section 3, "VerifyFailure". -/
inductive FailureLocation where
  | InRegion : Nat → String → Nat → FailureLocation
  | OutsideRegion : Nat → FailureLocation
deriving DecidableEq

/-- Structured verification failures. `ConstraintNotSatisfied` carries
(gate index, gate name, constraint index, constraint name, location,
formatted offending cells); the two evaluation-error failures carry the gate
and constraint identity and the row. Modelled from the spec: sections 3
and 4.4. -/
inductive VerifyFailure (F : Type) where
  | ConstraintNotSatisfied : Nat → String → Nat → String → FailureLocation →
      List ((Nat × Int) × String) → VerifyFailure F
  | CellNotAssigned : Nat → String → Nat → String → Nat → VerifyFailure F
  | RowOutOfRange : Nat → String → Nat → String → Nat → VerifyFailure F
deriving DecidableEq

/-- Formatted value of one queried advice cell at a row. Modelled from the
spec: section 4.4 (the failure cites the formatted values of the advice
cells the expression read). -/
def cellValue {F : Type} (fmt : F → String) (t : AssignmentTable F) (row : Nat)
    (q : Nat × Int) : (Nat × Int) × String :=
  (q, match t.advice q.1 ((row : Int) + q.2).toNat with
      | some v => fmt v
      | none => "unassigned")

/-- Locate a failing constraint: look up the provenance of the first advice
cell the expression touches at this row. Modelled from the spec:
section 4.4 (region "looked up via provenance for the cells the expression
touched"). -/
def locate {F : Type} (t : AssignmentTable F) (row : Nat) (e : Expression F) :
    FailureLocation :=
  match dedupQueries (adviceQueries e) with
  | [] => .OutsideRegion row
  | q :: _ =>
      match t.provenance q.1 ((row : Int) + q.2).toNat with
      | some (ri, rn, off) => .InRegion ri rn off
      | none => .OutsideRegion row

/-- Check one named constraint of a gate at a row: evaluate it, succeed on
zero, otherwise report a located `ConstraintNotSatisfied` with the formatted
cells; evaluation errors become the corresponding failures. Modelled from
the spec: section 4.4. -/
def checkConstraint {F : Type} [CommRing F] [DecidableEq F] (fmt : F → String)
    (t : AssignmentTable F) (row gi : Nat) (gname : String) (ci : Nat)
    (cname : String) (e : Expression F) : List (VerifyFailure F) :=
  match evaluate t row e with
  | .ok v =>
      if v = 0 then []
      else [.ConstraintNotSatisfied gi gname ci cname (locate t row e)
              ((dedupQueries (adviceQueries e)).map (cellValue fmt t row))]
  | .error .CellUnassigned => [.CellNotAssigned gi gname ci cname row]
  | .error .RowOutOfRange => [.RowOutOfRange gi gname ci cname row]

/-- Failures contributed by one gate at one row: none when the gate's
selector is inactive at that row, otherwise the failures of its constraints
in order. Modelled from the spec: section 4.4. -/
def gateFailures {F : Type} [CommRing F] [DecidableEq F] (fmt : F → String)
    (t : AssignmentTable F) (row gi : Nat) (g : Gate F) : List (VerifyFailure F) :=
  if t.selectors g.selector row then
    g.polys.enum.flatMap (fun p => checkConstraint fmt t row gi g.name p.1 p.2.1 p.2.2)
  else []

/-- Failures of all gates at one row, in gate-registration order. Modelled
from the spec: section 4.4. -/
def verifyRow {F : Type} [CommRing F] [DecidableEq F] (fmt : F → String)
    (gates : List (Gate F)) (t : AssignmentTable F) (row : Nat) :
    List (VerifyFailure F) :=
  gates.enum.flatMap (fun gp => gateFailures fmt t row gp.1 gp.2)

/-- The verifier: scan rows `0 .. num_usable_rows` in order and collect all
failures, row-major then gate order then constraint order. Modelled from
the spec: section 4.4. -/
def verify {F : Type} [CommRing F] [DecidableEq F] (fmt : F → String)
    (gates : List (Gate F)) (t : AssignmentTable F) (num_usable_rows : Nat) :
    List (VerifyFailure F) :=
  (List.range num_usable_rows).flatMap (verifyRow fmt gates t)

/-- The Pallas base-field prime, the modulus of the `pasta::Fp` used by the
repository's test. -/
def pallasP : Nat :=
  28948022309329048855892746252171976963363056481941560715954676764349967630337

/-- The concrete field of the repository's test: integers modulo the Pallas
base-field prime. -/
abbrev Fp : Type := ZMod pallasP

instance : NeZero pallasP := ⟨by decide⟩

/-- Hexadecimal rendering of a natural number, `0x` followed by lowercase
hex digits. Modelled from the spec: section 9 ("canonical hex formatting"),
matching the `0x16` form the test asserts for the value 22. -/
def hexString (n : Nat) : String :=
  "0x" ++ String.mk (Nat.toDigits 16 n)

/-- The canonical formatter for `Fp` values: hexadecimal of the canonical
representative. -/
def hexFmt (x : Fp) : String :=
  hexString x.val

/-- The whole pipeline of `MockProver::run` followed by `verify()` for this
circuit: configure the constraint system, synthesize the witness into a
fresh table of `2 ^ k` rows, and run the verifier over the rows. Modelled
from the spec: sections 2 (data flow) and 4.4. -/
def mockProverRun (F : Type) [CommRing F] [DecidableEq F] (fmt : F → String)
    (k RANGE : Nat) (circuit : MyCircuit F) : List (VerifyFailure F) :=
  let cg := configure F RANGE
  verify fmt cg.2 (synthesize F circuit cg.1 (emptyTable F (2 ^ k))) (2 ^ k)

/-- Semantic value of the range-check polynomial as a function of the advice
value: the source's fold carried out directly in the field,
`v * (1 - v) * (2 - v) * ... * (RANGE - 1 - v)`. -/
def rcEval (F : Type) [CommRing F] (RANGE : Nat) (x : F) : F :=
  (List.range' 1 (RANGE - 1)).foldl (fun (a : F) (i : Nat) => a * ((i : F) - x)) x

/-- The product the spec asserts the gate polynomial equals, written from the
spec's words for comparison with the source's fold:
`∏_\x7bi=0\x7d^\x7bRANGE-1\x7d (i - v)`. -/
def specProd (F : Type) [CommRing F] (RANGE : Nat) (v : F) : F :=
  ((List.range RANGE).map (fun (i : Nat) => (i : F) - v)).prod

/-- Integer counterpart of `rcEval`, used to bound the gate value away from
the field's modulus. -/
def rcEvalInt (RANGE : Nat) (v : Int) : Int :=
  (List.range' 1 (RANGE - 1)).foldl (fun (a : Int) (i : Nat) => a * ((i : Int) - v)) v

theorem evaluate_step {F : Type} [CommRing F] (t : AssignmentTable F) (row : Nat)
    (value e : Expression F) (y x : F) (hv : evaluate t row value = .ok y)
    (he : evaluate t row e = .ok x) (i : Nat) :
    evaluate t row (Expression.mul e (Expression.sub (Expression.Constant (i : F)) value))
      = .ok (x * ((i : F) - y)) := by
  simp [Expression.mul, Expression.sub, evaluate, hv, he, sub_eq_add_neg]

theorem evaluate_rc_foldl {F : Type} [CommRing F] (t : AssignmentTable F) (row : Nat)
    (value : Expression F) (y : F) (hv : evaluate t row value = .ok y) (l : List Nat) :
    ∀ (e : Expression F) (x : F), evaluate t row e = .ok x →
      evaluate t row (l.foldl (fun (expr : Expression F) (i : Nat) =>
          Expression.mul expr (Expression.sub (Expression.Constant (i : F)) value)) e)
        = .ok (l.foldl (fun (a : F) (i : Nat) => a * ((i : F) - y)) x) := by
  induction l with
  | nil => intro e x he; simpa using he
  | cons i l ih =>
      intro e x he
      simp only [List.foldl_cons]
      exact ih _ _ (evaluate_step t row value e y x hv he i)

theorem evaluate_rc_polynomial {F : Type} [CommRing F] (t : AssignmentTable F)
    (row RANGE : Nat) (value : Expression F) (y : F)
    (hv : evaluate t row value = .ok y) :
    evaluate t row (rc_polynomial F RANGE value) = .ok (rcEval F RANGE y) :=
  evaluate_rc_foldl t row value y hv _ value y hv

theorem foldl_mul_zero {F : Type} [CommRing F] (f : Nat → F) (l : List Nat) :
    l.foldl (fun a i => a * f i) 0 = 0 := by
  induction l with
  | nil => rfl
  | cons i l ih => rw [List.foldl_cons, zero_mul]; exact ih

theorem foldl_mul_eq_zero_of_mem {F : Type} [CommRing F] (f : Nat → F) (v : Nat)
    (hf : f v = 0) (l : List Nat) :
    ∀ (a : F), v ∈ l → l.foldl (fun a i => a * f i) a = 0 := by
  induction l with
  | nil => intro a h; cases h
  | cons i l ih =>
      intro a h
      rw [List.foldl_cons]
      rcases List.mem_cons.mp h with h1 | h2
      · rw [← h1, hf, mul_zero]
        exact foldl_mul_zero f l
      · exact ih _ h2

theorem rcEval_natCast_of_lt (F : Type) [CommRing F] (RANGE v : Nat) (h : v < RANGE) :
    rcEval F RANGE ((v : Nat) : F) = 0 := by
  unfold rcEval
  rcases Nat.eq_zero_or_pos v with hv | hv
  · subst hv
    rw [Nat.cast_zero]
    exact foldl_mul_zero (fun (i : Nat) => (i : F) - 0) _
  · refine foldl_mul_eq_zero_of_mem (fun (i : Nat) => (i : F) - ((v : Nat) : F)) v (sub_self _) _ _ ?_
    rw [List.mem_range'_1]
    omega

theorem foldl_mul_eq_prod {F : Type} [CommRing F] (f : Nat → F) (l : List Nat) :
    ∀ (a : F), l.foldl (fun b i => b * f i) a = a * (l.map f).prod := by
  induction l with
  | nil => intro a; simp
  | cons i l ih =>
      intro a
      rw [List.foldl_cons, ih, List.map_cons, List.prod_cons, mul_assoc]

theorem rcEval_eq_mul_prod (F : Type) [CommRing F] (RANGE : Nat) (x : F) :
    rcEval F RANGE x
      = x * ((List.range' 1 (RANGE - 1)).map (fun (i : Nat) => (i : F) - x)).prod :=
  foldl_mul_eq_prod _ _ x

theorem rcEval_eq_neg_specProd (F : Type) [CommRing F] (RANGE : Nat)
    (h : 0 < RANGE) (x : F) : rcEval F RANGE x = -specProd F RANGE x := by
  obtain ⟨n, rfl⟩ : ∃ n, RANGE = n + 1 := ⟨RANGE - 1, by omega⟩
  rw [rcEval_eq_mul_prod, specProd, List.range_eq_range', List.range'_succ,
    Nat.add_sub_cancel, Nat.zero_add, List.map_cons, List.prod_cons, Nat.cast_zero,
    zero_sub, neg_mul, neg_neg]

theorem rcEval_eq_zero_iff (F : Type) [Field F] (RANGE : Nat) (h : 0 < RANGE)
    (x : F) : rcEval F RANGE x = 0 ↔ ∃ i, i < RANGE ∧ x = (i : F) := by
  constructor
  · intro h0
    rw [rcEval_eq_mul_prod] at h0
    rcases mul_eq_zero.mp h0 with hx | hp
    · exact ⟨0, h, by rw [hx, Nat.cast_zero]⟩
    · rw [List.prod_eq_zero_iff] at hp
      rcases List.mem_map.mp hp with ⟨i, hi, hzero⟩
      rw [List.mem_range'_1] at hi
      exact ⟨i, by omega, (sub_eq_zero.mp hzero).symm⟩
  · rintro ⟨i, hi, rfl⟩
    exact rcEval_natCast_of_lt F RANGE i hi

theorem foldl_intCast (F : Type) [CommRing F] (v : Int) (l : List Nat) :
    ∀ (a : Int), ((l.foldl (fun (b : Int) (i : Nat) => b * ((i : Int) - v)) a : Int) : F)
      = l.foldl (fun (b : F) (i : Nat) => b * ((i : F) - ((v : Int) : F))) ((a : Int) : F) := by
  induction l with
  | nil => intro a; rfl
  | cons i l ih =>
      intro a
      rw [List.foldl_cons, List.foldl_cons, ih]
      congr 1
      push_cast
      ring

theorem rcEvalInt_cast (F : Type) [CommRing F] (RANGE : Nat) (v : Int) :
    ((rcEvalInt RANGE v : Int) : F) = rcEval F RANGE ((v : Int) : F) :=
  foldl_intCast F v _ v

theorem foldl_sub_bound (R : Nat) (l : List Nat) (hl : ∀ i ∈ l, 1 ≤ i ∧ i < R) :
    ∀ (a : Int), a ≠ 0 →
      l.foldl (fun (b : Int) (i : Nat) => b * ((i : Int) - (R : Int))) a ≠ 0
      ∧ |l.foldl (fun (b : Int) (i : Nat) => b * ((i : Int) - (R : Int))) a|
          ≤ |a| * (R : Int) ^ l.length := by
  induction l with
  | nil => intro a ha; exact ⟨ha, by simp⟩
  | cons i l ih =>
      intro a ha
      have hi := hl i (List.mem_cons_self i l)
      have hi2 : (i : Int) < (R : Int) := by exact_mod_cast hi.2
      have hi1 : (1 : Int) ≤ (i : Int) := by exact_mod_cast hi.1
      have hfac : ((i : Int) - (R : Int)) ≠ 0 := by omega
      have hseed : a * ((i : Int) - (R : Int)) ≠ 0 := mul_ne_zero ha hfac
      have hrec := ih (fun j hj => hl j (List.mem_cons_of_mem i hj))
        (a * ((i : Int) - (R : Int))) hseed
      refine ⟨by rw [List.foldl_cons]; exact hrec.1, ?_⟩
      rw [List.foldl_cons, List.length_cons]
      refine le_trans hrec.2 ?_
      rw [abs_mul, pow_succ']
      have hR0 : (0 : Int) ≤ (R : Int) := by positivity
      have h1 : |(i : Int) - (R : Int)| ≤ (R : Int) := by
        rw [abs_of_nonpos (by omega)]
        omega
      calc |a| * |(i : Int) - (R : Int)| * (R : Int) ^ l.length
          ≤ |a| * (R : Int) * (R : Int) ^ l.length := by
            exact mul_le_mul_of_nonneg_right
              (mul_le_mul_of_nonneg_left h1 (abs_nonneg a)) (pow_nonneg hR0 _)
        _ = |a| * ((R : Int) * (R : Int) ^ l.length) := by ring

theorem rcEvalInt_self (R : Nat) (h1 : 0 < R) :
    rcEvalInt R (R : Int) ≠ 0 ∧ |rcEvalInt R (R : Int)| ≤ (R : Int) ^ R := by
  have hmem : ∀ i ∈ List.range' 1 (R - 1), 1 ≤ i ∧ i < R := by
    intro i hi
    rw [List.mem_range'_1] at hi
    omega
  have ha : ((R : Int)) ≠ 0 := by exact_mod_cast h1.ne'
  have hb := foldl_sub_bound R (List.range' 1 (R - 1)) hmem (R : Int) ha
  refine ⟨hb.1, le_trans hb.2 ?_⟩
  rw [List.length_range', abs_of_nonneg (by positivity)]
  have h4 : (R : Int) * (R : Int) ^ (R - 1) = (R : Int) ^ R := by
    rw [← pow_succ']
    congr 1
    omega
  exact le_of_eq h4

theorem rcEval_natCast_self_ne_zero (R : Nat) (h1 : 0 < R) (h2 : R ^ R < pallasP) :
    rcEval Fp R ((R : Nat) : Fp) ≠ 0 := by
  have hcast : ((rcEvalInt R (R : Int) : Int) : Fp) = rcEval Fp R ((R : Nat) : Fp) := by
    rw [rcEvalInt_cast, Int.cast_natCast]
  rw [← hcast]
  intro h0
  rw [ZMod.intCast_zmod_eq_zero_iff_dvd] at h0
  obtain ⟨hne, hbound⟩ := rcEvalInt_self R h1
  have hP : (pallasP : Int) ≤ |rcEvalInt R (R : Int)| :=
    Int.le_of_dvd (abs_pos.mpr hne) ((dvd_abs _ _).mpr h0)
  have hRR : (R : Int) ^ R < (pallasP : Int) := by exact_mod_cast h2
  linarith

theorem flatMap_range_eq_head {α : Type} (f : Nat → List α) (n : Nat) (hn : 0 < n)
    (h : ∀ r, r ≠ 0 → f r = []) : (List.range n).flatMap f = f 0 := by
  induction n with
  | zero => exact (Nat.lt_irrefl 0 hn).elim
  | succ m ih =>
      rw [List.range_succ, List.flatMap_append]
      rcases Nat.eq_zero_or_pos m with hm | hm
      · subst hm
        simp
      · rw [ih hm]
        simp [h m hm.ne']

theorem adviceQueries_foldl_all {F : Type} [CommRing F] (value : Expression F)
    (c0 : Nat × Int) (hv : ∀ q ∈ adviceQueries value, q = c0) (l : List Nat) :
    ∀ (e : Expression F), (∀ q ∈ adviceQueries e, q = c0) →
      ∀ q ∈ adviceQueries (l.foldl (fun (expr : Expression F) (i : Nat) =>
        Expression.mul expr (Expression.sub (Expression.Constant (i : F)) value)) e),
        q = c0 := by
  induction l with
  | nil => intro e he; exact he
  | cons i l ih =>
      intro e he
      rw [List.foldl_cons]
      apply ih
      intro q hq
      simp only [Expression.mul, Expression.sub, adviceQueries, List.nil_append] at hq
      rcases List.mem_append.mp hq with h1 | h2
      · exact he q h1
      · exact hv q h2

theorem adviceQueries_foldl_split {F : Type} [CommRing F] (value : Expression F)
    (l : List Nat) :
    ∀ (e : Expression F), ∃ rest, adviceQueries (l.foldl (fun (expr : Expression F) (i : Nat) =>
      Expression.mul expr (Expression.sub (Expression.Constant (i : F)) value)) e)
        = adviceQueries e ++ rest := by
  induction l with
  | nil => intro e; exact ⟨[], (List.append_nil _).symm⟩
  | cons i l ih =>
      intro e
      rw [List.foldl_cons]
      obtain ⟨rest, hrest⟩ :=
        ih (Expression.mul e (Expression.sub (Expression.Constant (i : F)) value))
      refine ⟨adviceQueries value ++ rest, ?_⟩
      rw [hrest]
      simp [Expression.mul, Expression.sub, adviceQueries, List.append_assoc]

theorem dedup_foldl_const (a : Nat × Int) (l : List (Nat × Int))
    (hall : ∀ q ∈ l, q = a) :
    List.foldl (fun acc q => if q ∈ acc then acc else acc ++ [q]) [a] l = [a] := by
  induction l with
  | nil => rfl
  | cons q l ih =>
      rw [List.foldl_cons]
      obtain rfl := hall q (List.mem_cons_self q l)
      rw [if_pos (List.mem_singleton_self q)]
      exact ih (fun p hp => hall p (List.mem_cons_of_mem _ hp))

theorem dedupQueries_eq_single (a : Nat × Int) (l : List (Nat × Int))
    (hall : ∀ q ∈ l, q = a) : dedupQueries (a :: l) = [a] := by
  unfold dedupQueries
  rw [List.foldl_cons]
  exact dedup_foldl_const a l hall

theorem dedupQueries_rc (F : Type) [CommRing F] (RANGE : Nat) (c : Nat) (rot : Int) :
    dedupQueries (adviceQueries (rc_polynomial F RANGE (Expression.Advice c rot)))
      = [(c, rot)] := by
  obtain ⟨rest, hrest⟩ := adviceQueries_foldl_split (F := F) (Expression.Advice c rot)
    (List.range' 1 (RANGE - 1)) (Expression.Advice c rot)
  have hall := adviceQueries_foldl_all (F := F) (Expression.Advice c rot) (c, rot)
    (fun q hq => by simpa [adviceQueries] using hq)
    (List.range' 1 (RANGE - 1)) (Expression.Advice c rot)
    (fun q hq => by simpa [adviceQueries] using hq)
  unfold rc_polynomial
  rw [hrest]
  simp only [adviceQueries, List.singleton_append]
  apply dedupQueries_eq_single
  intro q hq
  refine hall q ?_
  rw [hrest]
  simp only [adviceQueries, List.singleton_append]
  exact List.mem_cons_of_mem _ hq

theorem evaluate_advice_zero {F : Type} [CommRing F] (t : AssignmentTable F) (c : Nat)
    (hn : 0 < t.num_rows) (x : F) (hx : t.advice c 0 = some x) :
    evaluate t 0 (Expression.Advice c 0) = Except.ok x := by
  unfold evaluate
  rw [if_pos ⟨by omega, by omega⟩]
  rw [show ((((0 : Nat)) : Int) + 0).toNat = 0 from rfl, hx]

theorem verifyRow_synth_off {F : Type} [CommRing F] [DecidableEq F] (fmt : F → String)
    (RANGE : Nat) (v : Option F) (n r : Nat) (hr : r ≠ 0) :
    verifyRow fmt (configure F RANGE).2
      (synthesize F { assigned_value := v } (configure F RANGE).1 (emptyTable F n)) r
      = [] := by
  have hsel : (synthesize F { assigned_value := v }
      { advice_column := 0, q_range_check := 0 }
      (emptyTable F n)).selectors 0 r = false := by
    show (if (0 = 0 ∧ r = 0) then true else false) = false
    simp [hr]
  simp [verifyRow, configure, gateFailures, hsel]

theorem verifyRow_synth_zero {F : Type} [CommRing F] [DecidableEq F] (fmt : F → String)
    (RANGE : Nat) (x : F) (n : Nat) (hn : 0 < n) :
    verifyRow fmt (configure F RANGE).2
      (synthesize F { assigned_value := some x } (configure F RANGE).1 (emptyTable F n)) 0
      = if rcEval F RANGE x = 0 then []
        else [VerifyFailure.ConstraintNotSatisfied 0 "range check" 0 "range check"
                (FailureLocation.InRegion 0 "Assign value" 0) [((0, 0), fmt x)]] := by
  have hadv : (synthesize F { assigned_value := some x }
      { advice_column := 0, q_range_check := 0 }
      (emptyTable F n)).advice 0 0 = some x := rfl
  have heval := evaluate_rc_polynomial
    (synthesize F { assigned_value := some x } { advice_column := 0, q_range_check := 0 }
      (emptyTable F n))
    0 RANGE (Expression.Advice 0 0) x
    (evaluate_advice_zero _ 0 (by exact hn) x hadv)
  have hsel : (synthesize F { assigned_value := some x }
      { advice_column := 0, q_range_check := 0 }
      (emptyTable F n)).selectors 0 0 = true := rfl
  have hloc : locate (synthesize F { assigned_value := some x }
      { advice_column := 0, q_range_check := 0 }
      (emptyTable F n)) 0 (rc_polynomial F RANGE (Expression.Advice 0 0))
      = FailureLocation.InRegion 0 "Assign value" 0 := by
    unfold locate
    rw [dedupQueries_rc]
    rfl
  have hcells : (dedupQueries (adviceQueries (rc_polynomial F RANGE (Expression.Advice 0 0)))).map
      (cellValue fmt (synthesize F { assigned_value := some x }
        { advice_column := 0, q_range_check := 0 } (emptyTable F n)) 0) = [((0, 0), fmt x)] := by
    rw [dedupQueries_rc]
    rfl
  simp only [verifyRow, configure, List.enum_cons, List.enumFrom_nil, List.flatMap_cons,
    List.flatMap_nil, List.append_nil, gateFailures, hsel, if_true, checkConstraint,
    heval, hloc, hcells]

theorem mockProverRun_eq (F : Type) [CommRing F] [DecidableEq F] (fmt : F → String)
    (k RANGE : Nat) (x : F) :
    mockProverRun F fmt k RANGE { assigned_value := some x } =
      if rcEval F RANGE x = 0 then []
      else [VerifyFailure.ConstraintNotSatisfied 0 "range check" 0 "range check"
              (FailureLocation.InRegion 0 "Assign value" 0) [((0, 0), fmt x)]] := by
  show verify fmt (configure F RANGE).2
      (synthesize F { assigned_value := some x } (configure F RANGE).1
        (emptyTable F (2 ^ k))) (2 ^ k) = _
  unfold verify
  rw [flatMap_range_eq_head _ _ (Nat.two_pow_pos k)
    (fun r hr => verifyRow_synth_off fmt RANGE (some x) (2 ^ k) r hr)]
  exact verifyRow_synth_zero fmt RANGE x (2 ^ k) (Nat.two_pow_pos k)

theorem hexFmt_natCast (R : Nat) (h : R < pallasP) :
    hexFmt ((R : Nat) : Fp) = hexString R := by
  unfold hexFmt
  rw [ZMod.val_natCast, Nat.mod_eq_of_lt h]

instance : Fact (Nat.Prime 101) := ⟨by norm_num⟩

/-- Claim C1: completeness of the range check — for every witness value `v`
in `0..RANGE` (as a field element) assigned into the advice column at row 0
with the selector enabled at row 0, the verifier returns satisfied (an empty
failure list). Stated over any commutative ring of field elements. -/
theorem range_check_completeness (F : Type) [CommRing F] [DecidableEq F]
    (fmt : F → String) (k RANGE v : Nat) (h : v < RANGE) :
    mockProverRun F fmt k RANGE { assigned_value := some ((v : Nat) : F) } = [] := by
  rw [mockProverRun_eq, if_pos (rcEval_natCast_of_lt F RANGE v h)]

theorem range_check_completeness_witness :
    3 < 8 ∧ mockProverRun Fp hexFmt 4 8 { assigned_value := some ((3 : Nat) : Fp) } = [] :=
  ⟨by decide, range_check_completeness Fp hexFmt 4 8 3 (by decide)⟩

/-- Claim C2: soundness just past the domain — for a witness equal to `RANGE`
exactly (one past the valid domain, with `0 < RANGE` and `RANGE` small
against the modulus so that the bound has content), the verifier returns
exactly one `ConstraintNotSatisfied` failure at the gate "range check", the
region "Assign value", offset 0, citing the single advice cell with its
value formatted in hexadecimal. -/
theorem range_check_soundness_at_range (k RANGE : Nat) (h1 : 0 < RANGE)
    (h2 : RANGE ^ RANGE < pallasP) :
    mockProverRun Fp hexFmt k RANGE { assigned_value := some ((RANGE : Nat) : Fp) }
      = [VerifyFailure.ConstraintNotSatisfied 0 "range check" 0 "range check"
          (FailureLocation.InRegion 0 "Assign value" 0) [((0, 0), hexString RANGE)]] := by
  have hR : RANGE < pallasP := lt_of_le_of_lt (Nat.le_self_pow h1.ne' RANGE) h2
  rw [mockProverRun_eq, if_neg (rcEval_natCast_self_ne_zero RANGE h1 h2),
    hexFmt_natCast RANGE hR]

theorem range_check_soundness_at_range_witness :
    0 < 8 ∧ 8 ^ 8 < pallasP
    ∧ mockProverRun Fp hexFmt 4 8 { assigned_value := some ((8 : Nat) : Fp) }
        = [VerifyFailure.ConstraintNotSatisfied 0 "range check" 0 "range check"
            (FailureLocation.InRegion 0 "Assign value" 0) [((0, 0), hexString 8)]] :=
  ⟨by decide, by decide, range_check_soundness_at_range 4 8 (by decide) (by decide)⟩

/-- Claim C3, counterexample: the gate polynomial the source builds is not
equal, as a function of the advice value, to the spec's product
`∏_\x7bi=0\x7d^\x7bRANGE-1\x7d (i - v)`: at `RANGE = 8` and `v = 22` the gate
evaluates to the negation of that product, and the two differ. -/
theorem rc_polynomial_not_spec_product :
    evaluate (synthesize Fp { assigned_value := some (22 : Fp) }
        { advice_column := 0, q_range_check := 0 } (emptyTable Fp 16)) 0
        (rc_polynomial Fp 8 (Expression.Advice 0 0))
      = Except.ok (rcEval Fp 8 (22 : Fp))
    ∧ rcEval Fp 8 (22 : Fp) ≠ specProd Fp 8 (22 : Fp) :=
  ⟨rfl, by decide⟩

/-- Claim C3, amended: the gate's polynomial is built by folding `i` over
`1..RANGE` (not `0..RANGE`), accumulating `expr := expr * (Constant(i) -
value)`, seeded with `expr := value`; as a function of the advice value it
equals `v * ∏ (i - v)` for `i` in `1..RANGE-1`, which is the negation of
the spec's `∏_\x7bi=0\x7d^\x7bRANGE-1\x7d (i - v)`, and over a field it is zero
precisely at the values that are casts of the integers `0..RANGE-1` and
nonzero at every other field value (for `0 < RANGE`). -/
theorem rc_polynomial_construction (F : Type) [Field F] (RANGE : Nat)
    (h1 : 0 < RANGE) :
    (∀ (t : AssignmentTable F) (row : Nat) (x : F),
        evaluate t row (Expression.Advice 0 0) = Except.ok x →
        evaluate t row (rc_polynomial F RANGE (Expression.Advice 0 0))
          = Except.ok (rcEval F RANGE x))
    ∧ (∀ x : F, rcEval F RANGE x = -specProd F RANGE x)
    ∧ (∀ x : F, rcEval F RANGE x = 0 ↔ ∃ i, i < RANGE ∧ x = (i : F)) := by
  refine ⟨?_, ?_, ?_⟩
  · intro t row x hx
    exact evaluate_rc_polynomial t row RANGE _ x hx
  · intro x
    exact rcEval_eq_neg_specProd F RANGE h1 x
  · intro x
    exact rcEval_eq_zero_iff F RANGE h1 x

theorem rc_polynomial_construction_witness :
    0 < 8 ∧ (∀ x : ZMod 101, rcEval (ZMod 101) 8 x = -specProd (ZMod 101) 8 x) :=
  ⟨by decide, (rc_polynomial_construction (ZMod 101) 8 (by decide)).2.1⟩

/-- Claim C4, counterexample: with `RANGE = 0` the configuration is not
rejected and the gate is satisfiable — the witness 0 assigned with the
selector enabled makes the verifier return satisfied. -/
theorem range_zero_satisfiable :
    mockProverRun Fp hexFmt 4 0 { assigned_value := some (0 : Fp) } = [] := by
  decide

/-- Claim C4, amended: `RANGE = 0` is accepted at configuration time and the
fold over `1..RANGE` degenerates to its seed, the bare advice value, so the
`RANGE = 0` gate polynomial coincides with the `RANGE = 1` polynomial and is
satisfiable precisely by the witness 0 (it does not treat every value as in
range, and it is not unsatisfiable). -/
theorem range_zero_behavior (F : Type) [CommRing F] [DecidableEq F]
    (fmt : F → String) (k : Nat) (v : F) :
    rc_polynomial F 0 (Expression.Advice 0 0) = Expression.Advice 0 0
    ∧ rc_polynomial F 1 (Expression.Advice 0 0) = rc_polynomial F 0 (Expression.Advice 0 0)
    ∧ (mockProverRun F fmt k 0 { assigned_value := some v } = [] ↔ v = 0) := by
  refine ⟨rfl, rfl, ?_⟩
  have hrc : rcEval F 0 v = v := rfl
  rw [mockProverRun_eq, hrc]
  by_cases hv : v = 0
  · simp [hv]
  · simp [hv]

/-- Claim C5: concrete scenario — with `RANGE = 8` and `k = 4` (16 rows), a
witness `v = 5` verifies as satisfied, and a witness `v = 22` yields exactly
one failure with constraint "range check", region "Assign value", offset 0,
and the offending advice cell's value formatted as "0x16". -/
theorem concrete_scenario_range8_k4 :
    mockProverRun Fp hexFmt 4 8 { assigned_value := some (5 : Fp) } = []
    ∧ mockProverRun Fp hexFmt 4 8 { assigned_value := some (22 : Fp) }
        = [VerifyFailure.ConstraintNotSatisfied 0 "range check" 0 "range check"
            (FailureLocation.InRegion 0 "Assign value" 0) [((0, 0), "0x16")]] :=
  ⟨by decide, by decide⟩

/-- Claim C6: selector gating — at any row where the selector
`q_range_check` is disabled, whatever the advice values at that row
(including out-of-range ones), the range-check gate contributes no failure
at that row. -/
theorem selector_gating_no_failure (F : Type) [CommRing F] [DecidableEq F]
    (fmt : F → String) (RANGE : Nat) (t : AssignmentTable F) (row : Nat)
    (h : t.selectors ((configure F RANGE).1.q_range_check) row = false) :
    verifyRow fmt (configure F RANGE).2 t row = [] := by
  have h0 : t.selectors 0 row = false := h
  simp [verifyRow, configure, gateFailures, h0]

theorem selector_gating_no_failure_witness :
    (assign_advice (emptyTable Fp 16) 0 0 (some (22 : Fp)) 0 "Assign value" 0).selectors
        ((configure Fp 8).1.q_range_check) 0 = false
    ∧ verifyRow hexFmt (configure Fp 8).2
        (assign_advice (emptyTable Fp 16) 0 0 (some (22 : Fp)) 0 "Assign value" 0) 0 = [] :=
  ⟨by decide, selector_gating_no_failure Fp hexFmt 8 _ 0 (by decide)⟩

/-- Claim C7: boundary `RANGE = 1` — the gate forces the advice value to
equal 0: a witness of 0 with the selector enabled verifies as satisfied,
and every nonzero witness with the selector enabled produces a
`ConstraintNotSatisfied` failure. -/
theorem range_one_forces_zero (F : Type) [CommRing F] [DecidableEq F]
    (fmt : F → String) (k : Nat) (v : F) :
    (v = 0 → mockProverRun F fmt k 1 { assigned_value := some v } = [])
    ∧ (v ≠ 0 → mockProverRun F fmt k 1 { assigned_value := some v }
        = [VerifyFailure.ConstraintNotSatisfied 0 "range check" 0 "range check"
            (FailureLocation.InRegion 0 "Assign value" 0) [((0, 0), fmt v)]]) := by
  have hrc : rcEval F 1 v = v := rfl
  constructor
  · intro hv
    rw [mockProverRun_eq, hrc, if_pos hv]
  · intro hv
    rw [mockProverRun_eq, hrc, if_neg hv]

/-- Claim C8: determinism of verification — the verifier is a pure function
of the gate set and the observable content of the table: two runs over
tables with identical rows, advice values, selector bits and provenance
yield identical failure lists, in identical order; in particular running it
twice on the same table yields the same list. -/
theorem verify_deterministic (F : Type) [CommRing F] [DecidableEq F] (fmt : F → String)
    (gates : List (Gate F)) (t1 t2 : AssignmentTable F) (n : Nat)
    (h1 : t1.num_rows = t2.num_rows)
    (h2 : ∀ c r, t1.advice c r = t2.advice c r)
    (h3 : ∀ s r, t1.selectors s r = t2.selectors s r)
    (h4 : ∀ c r, t1.provenance c r = t2.provenance c r) :
    verify fmt gates t1 n = verify fmt gates t2 n := by
  have ha : t1.advice = t2.advice := funext fun c => funext fun r => h2 c r
  have hs : t1.selectors = t2.selectors := funext fun s => funext fun r => h3 s r
  have hp : t1.provenance = t2.provenance := funext fun c => funext fun r => h4 c r
  have ht : t1 = t2 := by
    obtain ⟨n1, a1, s1, p1⟩ := t1
    obtain ⟨n2, a2, s2, p2⟩ := t2
    dsimp only at h1 ha hs hp
    subst h1 ha hs hp
    rfl
  rw [ht]

theorem verify_deterministic_witness :
    verify hexFmt (configure Fp 8).2 (emptyTable Fp 4) 4
      = verify hexFmt (configure Fp 8).2 (emptyTable Fp 4) 4 :=
  verify_deterministic Fp hexFmt (configure Fp 8).2 (emptyTable Fp 4) (emptyTable Fp 4) 4
    rfl (fun _ _ => rfl) (fun _ _ => rfl) (fun _ _ => rfl)

/-- Claim C9: `without_witnesses` returns a circuit whose assigned value is
the Unknown value (the default of `Value`), so shape-only synthesis writes
no concrete witness into the advice cell. -/
theorem without_witnesses_unknown (F : Type) [CommRing F] (RANGE n : Nat)
    (c : MyCircuit F) :
    (without_witnesses F c).assigned_value = none
    ∧ (synthesize F (without_witnesses F c) (configure F RANGE).1 (emptyTable F n)).advice
        ((configure F RANGE).1.advice_column) 0 = none :=
  ⟨rfl, rfl⟩

/-- Claim C10: frame property of synthesis — starting from any table,
`synthesize` touches only offset 0 of its one region "Assign value": it
enables only `q_range_check` at row 0, assigns only the single advice cell
`(advice_column, 0)` (recording that region's provenance), and leaves every
other advice cell, selector bit and provenance entry exactly as it was. -/
theorem synthesize_frame (F : Type) [CommRing F] (RANGE : Nat) (c : MyCircuit F)
    (t : AssignmentTable F) :
    (synthesize F c (configure F RANGE).1 t).num_rows = t.num_rows
    ∧ (synthesize F c (configure F RANGE).1 t).selectors
        ((configure F RANGE).1.q_range_check) 0 = true
    ∧ (synthesize F c (configure F RANGE).1 t).advice
        ((configure F RANGE).1.advice_column) 0 = c.assigned_value
    ∧ (synthesize F c (configure F RANGE).1 t).provenance
        ((configure F RANGE).1.advice_column) 0 = some (0, "Assign value", 0)
    ∧ (∀ co r, ¬(co = (configure F RANGE).1.advice_column ∧ r = 0) →
        (synthesize F c (configure F RANGE).1 t).advice co r = t.advice co r)
    ∧ (∀ s r, ¬(s = (configure F RANGE).1.q_range_check ∧ r = 0) →
        (synthesize F c (configure F RANGE).1 t).selectors s r = t.selectors s r)
    ∧ (∀ co r, ¬(co = (configure F RANGE).1.advice_column ∧ r = 0) →
        (synthesize F c (configure F RANGE).1 t).provenance co r = t.provenance co r) := by
  refine ⟨rfl, rfl, rfl, rfl, ?_, ?_, ?_⟩
  · intro co r hco
    have hco' : ¬(co = 0 ∧ r = 0) := hco
    show (if co = 0 ∧ r = 0 then c.assigned_value
      else (enable_selector t 0 0).advice co r) = t.advice co r
    rw [if_neg hco']
    rfl
  · intro s r hs
    have hs' : ¬(s = 0 ∧ r = 0) := hs
    show (if s = 0 ∧ r = 0 then true else t.selectors s r) = t.selectors s r
    rw [if_neg hs']
  · intro co r hco
    have hco' : ¬(co = 0 ∧ r = 0) := hco
    show (if co = 0 ∧ r = 0 then some (0, "Assign value", 0)
      else (enable_selector t 0 0).provenance co r) = t.provenance co r
    rw [if_neg hco']
    rfl

end RangeCheck
